import Mathlib

set_option maxRecDepth 10000

/-!
Verification model of `src/pairwise_runner.py`.

The Python program is randomized and effectful; the embedding makes both
explicit:
  * `random.shuffle` is externalized: theorems quantify over any permutation
    of the input list;
  * each call to `random.choice` / `random.randint` consumes one value from
    an oracle stream `c : Nat → Nat` (reduced modulo the list length so that
    every oracle describes a run, and every run is described by some oracle);
  * the rejection loop re-drawing `node2` is given explicit fuel: a run of
    the Python loop that terminates is a run of the model that returns `some`
    for some fuel, and a Python run that loops forever corresponds to `none`
    for every fuel;
  * `print` output is returned as data, and the filesystem / subprocess side
    effects of `main` are recorded as an `Action` trace, with the scheduler's
    exit status supplied by an oracle `sbatchExit`.
-/

namespace PairwiseRunner

/-- Whitespace test used by Python's default `str.strip()`. -/
def isSpaceCh (ch : Char) : Bool :=
  ch == ' ' || ch == '\t' || ch == '\n' || ch == '\r' || ch == '\x0b' || ch == '\x0c'

/-- Python `s.strip()`: drop leading and trailing whitespace characters. -/
def pyStrip (s : String) : String :=
  ⟨((s.data.dropWhile isSpaceCh).reverse.dropWhile isSpaceCh).reverse⟩

/-- `read_file`: `[line.strip() for line in file]`.  The file is modelled as
the list of raw lines the iteration yields. -/
def read_file (lines : List String) : List String :=
  lines.map pyStrip

/-- `shuffle_and_filter_nodes`, after the shuffle: the caller passes the
already-shuffled list (theorems quantify over permutations).  If the length
is odd, `random.randint(0, len-1)` picks an index (modelled as
`randIdx % length`), the node there is printed as excluded (second component)
and popped. -/
def shuffle_and_filter_nodes (randIdx : Nat) (nodes : List String) :
    List String × Option String :=
  if nodes.length % 2 ≠ 0 then
    (nodes.eraseIdx (randIdx % nodes.length),
     some (nodes.getD (randIdx % nodes.length) ""))
  else
    (nodes, none)

/-- The inner loop of `create_pairs`: draw `node2 = random.choice(nodes)` and
re-draw while it equals `node1`.  `k` is the position in the oracle stream,
`fuel` bounds the number of draws; a loop that never exits is `none` for
every fuel. -/
def drawDistinct (c : Nat → Nat) (node1 : String) (nodes : List String) :
    Nat → Nat → Option (String × Nat)
  | 0, _ => none
  | fuel + 1, k =>
    let node2 := nodes.getD (c k % nodes.length) ""
    if node2 == node1 then drawDistinct c node1 nodes fuel (k + 1)
    else some (node2, k + 1)

/-- `create_pairs`: while more than one node remains, draw `node1`, draw a
distinct `node2`, record the pair and `list.remove` both (first occurrence).
The Python pair is the string `f"{node1},{node2}"`; the model keeps the two
components and `pairStr` performs the encoding.  `outerFuel` bounds the
number of iterations of the `while` loop (each iteration removes two nodes,
so `nodes.length` iterations always suffice); the threaded `k` is the oracle
position. -/
def create_pairs (c : Nat → Nat) (innerFuel : Nat) :
    Nat → Nat → List String → Option (List (String × String) × Nat)
  | 0, k, nodes => if nodes.length > 1 then none else some ([], k)
  | outerFuel + 1, k, nodes =>
    if nodes.length > 1 then
      let node1 := nodes.getD (c k % nodes.length) ""
      match drawDistinct c node1 nodes innerFuel (k + 1) with
      | none => none
      | some (node2, k') =>
        match create_pairs c innerFuel outerFuel k' ((nodes.erase node1).erase node2) with
        | none => none
        | some (pairs, k'') => some ((node1, node2) :: pairs, k'')
    else some ([], k)

/-- The encoding `f"{node1},{node2}"` used by `create_pairs`. -/
def pairStr (p : String × String) : String :=
  p.1 ++ "," ++ p.2

/-- The members of a list of pairs, in order. -/
def pairNodes : List (String × String) → List String
  | [] => []
  | p :: rest => p.1 :: p.2 :: pairNodes rest

/-- Python `str.split(',')` on a character list: split at every comma,
keeping empty groups. -/
def splitCommaCh : List Char → List (List Char)
  | [] => [[]]
  | ch :: cs =>
    if ch == ',' then [] :: splitCommaCh cs
    else
      match splitCommaCh cs with
      | [] => [[ch]]
      | g :: gs => (ch :: g) :: gs

/-- Python `pair.split(',')`. -/
def pySplitComma (s : String) : List String :=
  (splitCommaCh s.data).map String.mk

/-- Python `str.replace(a, b)` for one-character patterns (the two uses in
the source replace `'/'` by `'-'` and `','` by `'_'`). -/
def replaceChar (a b : Char) (s : String) : String :=
  ⟨s.data.map fun ch => if ch == a then b else ch⟩

/-- `omb_name.replace('/', '-')` from `main`. -/
def sanitize (omb_name : String) : String :=
  replaceChar '/' '-' omb_name

/-- Decimal digit characters, for rendering the sequence index. -/
def digitCh : Nat → Char
  | 0 => '0' | 1 => '1' | 2 => '2' | 3 => '3' | 4 => '4'
  | 5 => '5' | 6 => '6' | 7 => '7' | 8 => '8' | 9 => '9'
  | _ => '*'

/-- Decimal rendering of a natural number (digit list), fuelled. -/
def natCharsAux : Nat → Nat → List Char
  | 0, _ => []
  | fuel + 1, n =>
    if n < 10 then [digitCh n]
    else natCharsAux fuel (n / 10) ++ [digitCh (n % 10)]

/-- Python `f"{i}"` for a natural number: decimal rendering. -/
def natStr (n : Nat) : String :=
  ⟨natCharsAux (n + 1) n⟩

/-- The `--job-name` value: `bibw_{omb_name}_{node1}_{node2}` (note: the raw
module name, not the sanitized tag). -/
def job_name (omb_name node1 node2 : String) : String :=
  "bibw_" ++ omb_name ++ "_" ++ node1 ++ "_" ++ node2

/-- The `--output` value: `log/{i}_{sanitized_omb_name}_{node1}_{node2}_%j.out`. -/
def output_path (i : Nat) (sanitized_omb_name node1 node2 : String) : String :=
  "log/" ++ natStr i ++ "_" ++ sanitized_omb_name ++ "_" ++ node1 ++ "_" ++ node2 ++ "_%j.out"

/-- The body of the generated job script, exactly the f-string of
`generate_job_script` with the two nodes substituted. -/
def job_script_body (i : Nat) (omb_name mpi_cmd sanitized_omb_name node1 node2 : String) :
    String :=
  "#!/bin/bash\n" ++
  "#SBATCH --job-name=" ++ job_name omb_name node1 node2 ++ "\n" ++
  "#SBATCH --reservation=maint\n" ++
  "#SBATCH -p htc\n" ++
  "#SBATCH -q public\n" ++
  "#SBATCH -t 1\n" ++
  "#SBATCH --ntasks-per-node=1\n" ++
  "#SBATCH --gpus-per-node=1\n" ++
  "#SBATCH -N 2\n" ++
  "#SBATCH -n 2\n" ++
  "#SBATCH -c 1\n" ++
  "#SBATCH --nodelist=" ++ node1 ++ "," ++ node2 ++ "\n" ++
  "#SBATCH --output=" ++ output_path i sanitized_omb_name node1 node2 ++ "\n" ++
  "#SBATCH --export=NONE\n" ++
  "\n" ++
  "echo \"Running on nodes " ++ node1 ++ " and " ++ node2 ++ " with OMB " ++ omb_name ++ "\"\n" ++
  "module load " ++ omb_name ++ "\n" ++
  mpi_cmd ++ " \"osu_bibw\"\n"

/-- `generate_job_script`: `node1, node2 = pair.split(',')` raises unless the
split has exactly two parts (modelled as `none`), then renders the script. -/
def generate_job_script (i : Nat) (pair omb_name mpi_cmd sanitized_omb_name : String) :
    Option String :=
  match pySplitComma pair with
  | [node1, node2] => some (job_script_body i omb_name mpi_cmd sanitized_omb_name node1 node2)
  | _ => none

/-- `script_name` from `main`: `log/bibw_{i}_{sanitized_omb_name}_{pair.replace(',', '_')}.sh`. -/
def script_name (i : Nat) (sanitized_omb_name pair : String) : String :=
  "log/bibw_" ++ natStr i ++ "_" ++ sanitized_omb_name ++ "_" ++ replaceChar ',' '_' pair ++ ".sh"

/-- One observable side effect of the dispatch loop in `main`. -/
inductive Action where
  | ensure_log_dir : Action
  | write_file (name content : String) : Action
  | chmod_exec (name : String) : Action
  | run (argv : List String) : Action
  deriving DecidableEq, Repr

/-- The per-pair loop of `main` (enumerate over the pair strings): generate
the script (`none` on the unpack error), ensure the log directory, write the
file, chmod it, and `subprocess.run(['sbatch', script_name])`.  The
scheduler's exit status `sbatchExit name` is received and discarded, exactly
as `subprocess.run`'s result is unused in the source. -/
def dispatch_pairs (sbatchExit : String → Int) (omb_name mpi_cmd : String) :
    Nat → List String → Option (List Action)
  | _, [] => some []
  | i, pair :: rest =>
    match generate_job_script i pair omb_name mpi_cmd (sanitize omb_name) with
    | none => none
    | some script =>
      let name := script_name i (sanitize omb_name) pair
      let _exit := sbatchExit name
      match dispatch_pairs sbatchExit omb_name mpi_cmd (i + 1) rest with
      | none => none
      | some acts =>
        some (Action.ensure_log_dir :: Action.write_file name script ::
              Action.chmod_exec name :: Action.run ["sbatch", name] :: acts)

/-- Test whether `p` is a prefix of the second list. -/
def hasPre : List Char → List Char → Bool
  | [], _ => true
  | _ :: _, [] => false
  | p :: ps, ch :: cs => p == ch && hasPre ps cs

/-- Test whether `pat` occurs contiguously inside the second list. -/
def containsSeq (pat : List Char) : List Char → Bool
  | [] => pat.isEmpty
  | ch :: cs => hasPre pat (ch :: cs) || containsSeq pat cs

/-- Substring test on strings. -/
def strContains (s pat : String) : Bool :=
  containsSeq pat.data s.data

/-- The oracle used to witness termination of `create_pairs`: alternate
between index 0 (for `node1`) and index 1 (for the single re-draw of
`node2`). -/
def altOracle : Nat → Nat := fun k => k % 2

/-- Numeric value of a decimal digit character (0 for non-digits); used to
prove that the decimal rendering of the sequence index is injective. -/
def digitVal : Char → Nat
  | '0' => 0 | '1' => 1 | '2' => 2 | '3' => 3 | '4' => 4
  | '5' => 5 | '6' => 6 | '7' => 7 | '8' => 8 | '9' => 9
  | _ => 0

/-- Value of a digit-character list read as a decimal numeral. -/
def charsVal (l : List Char) : Nat :=
  l.foldl (fun acc ch => 10 * acc + digitVal ch) 0

/-- Whether an `Action` is a child-process invocation. -/
def isRunAct : Action → Bool
  | Action.run _ => true
  | _ => false

/-! ## Helper lemmas about the pairing engine -/

theorem getD_mem (l : List String) (n : Nat) (h : n < l.length) :
    l.getD n "" ∈ l := by
  have hg : l.getD n "" = l.get ⟨n, h⟩ := by
    simp [List.getD_eq_getElem?_getD, List.getElem?_eq_getElem h, List.get_eq_getElem]
  rw [hg]
  exact l.get_mem _ _

theorem drawDistinct_spec (c : Nat → Nat) (node1 : String) (nodes : List String)
    (hne : nodes ≠ []) :
    ∀ fuel k x k₂, drawDistinct c node1 nodes fuel k = some (x, k₂) →
      x ∈ nodes ∧ x ≠ node1 := by
  intro fuel
  induction fuel with
  | zero => intro k x k₂ h; simp [drawDistinct] at h
  | succ fuel ih =>
    intro k x k₂ h
    simp only [drawDistinct] at h
    by_cases hb : (nodes.getD (c k % nodes.length) "" == node1) = true
    · rw [if_pos hb] at h
      exact ih _ _ _ h
    · rw [if_neg hb] at h
      have hb' : nodes.getD (c k % nodes.length) "" ≠ node1 :=
        beq_eq_false_iff_ne.mp (Bool.not_eq_true _ ▸ hb)
      have hx : nodes.getD (c k % nodes.length) "" = x := by
        simpa using congrArg (fun r => (Option.map Prod.fst r).getD "") h
      have hlt : c k % nodes.length < nodes.length :=
        Nat.mod_lt _ (List.length_pos.mpr hne)
      exact ⟨hx ▸ getD_mem _ _ hlt, hx ▸ hb'⟩

theorem create_pairs_spec :
    ∀ (oF : Nat) (c : Nat → Nat) (iF k : Nat) (nodes : List String)
      (pairs : List (String × String)) (k' : Nat),
      nodes.length % 2 = 0 →
      create_pairs c iF oF k nodes = some (pairs, k') →
      (∀ p ∈ pairs, p.1 ≠ p.2) ∧ (pairNodes pairs).Perm nodes ∧
        pairs.length = nodes.length / 2 := by
  intro oF
  induction oF with
  | zero =>
    intro c iF k nodes pairs k' heven h
    simp only [create_pairs] at h
    by_cases hlen : nodes.length > 1
    · rw [if_pos hlen] at h; cases h
    · rw [if_neg hlen] at h
      have hnil : nodes = [] := List.eq_nil_of_length_eq_zero (by omega)
      obtain ⟨hp, hk⟩ : ([] : List (String × String)) = pairs ∧ k = k' := by
        simpa using h
      subst hp
      simp [pairNodes, hnil]
  | succ oF ih =>
    intro c iF k nodes pairs k' heven h
    simp only [create_pairs] at h
    by_cases hlen : nodes.length > 1
    · rw [if_pos hlen] at h
      cases hd : drawDistinct c (nodes.getD (c k % nodes.length) "") nodes iF (k + 1) with
      | none => rw [hd] at h; cases h
      | some res =>
        obtain ⟨node2, k₂⟩ := res
        rw [hd] at h
        simp only [] at h
        cases hrec : create_pairs c iF oF k₂
            ((nodes.erase (nodes.getD (c k % nodes.length) "")).erase node2) with
        | none => rw [hrec] at h; cases h
        | some pr =>
          obtain ⟨ps, k₃⟩ := pr
          rw [hrec] at h
          obtain ⟨hp, hk⟩ : (nodes.getD (c k % nodes.length) "", node2) :: ps = pairs ∧ k₃ = k' := by
            simpa using h
          subst hp
          have hlpos : 0 < nodes.length := by omega
          have hmem1 : nodes.getD (c k % nodes.length) "" ∈ nodes :=
            getD_mem _ _ (Nat.mod_lt _ hlpos)
          obtain ⟨hmem2, hne2⟩ :=
            drawDistinct_spec c _ nodes (List.ne_nil_of_length_pos hlpos) iF (k + 1) node2 k₂ hd
          have hmem2' : node2 ∈ nodes.erase (nodes.getD (c k % nodes.length) "") :=
            (List.mem_erase_of_ne hne2).mpr hmem2
          have hlen1 : (nodes.erase (nodes.getD (c k % nodes.length) "")).length
              = nodes.length - 1 := List.length_erase_of_mem hmem1
          have hlen2 : ((nodes.erase (nodes.getD (c k % nodes.length) "")).erase node2).length
              = nodes.length - 2 := by
            rw [List.length_erase_of_mem hmem2', hlen1]
            omega
          have heven2 : ((nodes.erase (nodes.getD (c k % nodes.length) "")).erase node2).length % 2
              = 0 := by omega
          obtain ⟨ihSelf, ihPerm, ihLen⟩ := ih c iF k₂ _ ps k₃ heven2 hrec
          refine ⟨?_, ?_, ?_⟩
          · intro p hp
            rcases List.mem_cons.mp hp with h1 | h1
            · subst h1; exact fun hcon => hne2 hcon.symm
            · exact ihSelf p h1
          · have h1 : nodes.Perm (nodes.getD (c k % nodes.length) "" ::
                nodes.erase (nodes.getD (c k % nodes.length) "")) :=
              List.perm_cons_erase hmem1
            have h2 : (nodes.erase (nodes.getD (c k % nodes.length) "")).Perm
                (node2 :: (nodes.erase (nodes.getD (c k % nodes.length) "")).erase node2) :=
              List.perm_cons_erase hmem2'
            show (nodes.getD (c k % nodes.length) "" :: node2 :: pairNodes ps).Perm nodes
            exact ((ihPerm.cons node2).cons _).trans
              (((h2.symm.cons _).trans h1.symm))
          · have : ps.length = (nodes.length - 2) / 2 := by rw [ihLen, hlen2]
            simp only [List.length_cons]
            omega
    · rw [if_neg hlen] at h
      have hnil : nodes = [] := List.eq_nil_of_length_eq_zero (by omega)
      obtain ⟨hp, hk⟩ : ([] : List (String × String)) = pairs ∧ k = k' := by
        simpa using h
      subst hp
      simp [pairNodes, hnil]

theorem perm_getD_eraseIdx :
    ∀ (l : List String) (i : Nat), i < l.length →
      l.Perm (l.getD i "" :: l.eraseIdx i) := by
  intro l
  induction l with
  | nil => intro i h; simp at h
  | cons a t ih =>
    intro i h
    cases i with
    | zero =>
      simp only [List.getD_cons_zero, List.eraseIdx_cons_zero]
      exact List.Perm.refl _
    | succ i =>
      have h' : i < t.length := by simpa using h
      simp only [List.getD_cons_succ, List.eraseIdx_cons_succ]
      exact ((ih i h').cons a).trans (List.Perm.swap _ a _)

/-! ## Claims about the pairing stage -/

/-- C1: for every input node list, every terminating run of the pairing
stage (`shuffle_and_filter_nodes` on any shuffle of the input, then
`create_pairs`) yields a partition into pairs: no pair has two equal
members; for even input size `N` there are exactly `N/2` pairs whose
members are a permutation of the input (so every node occurrence is used
exactly once — for duplicate-free input, each node appears in exactly one
pair) and nothing is excluded; for odd size `N` exactly one node is
excluded and the `(N-1)/2` pairs cover the remaining occurrences exactly
once each. -/
theorem C1_pairing_partition :
    ∀ (nodes shuffled : List String) (randIdx : Nat) (c : Nat → Nat)
      (iF oF k k' : Nat) (pairs : List (String × String)),
      shuffled.Perm nodes →
      create_pairs c iF oF k (shuffle_and_filter_nodes randIdx shuffled).1 = some (pairs, k') →
      (∀ p ∈ pairs, p.1 ≠ p.2) ∧
      (nodes.length % 2 = 0 →
        (shuffle_and_filter_nodes randIdx shuffled).2 = none ∧
        pairs.length = nodes.length / 2 ∧
        (pairNodes pairs).Perm nodes ∧
        (nodes.Nodup → ∀ x ∈ nodes, (pairNodes pairs).count x = 1)) ∧
      (nodes.length % 2 = 1 →
        pairs.length = (nodes.length - 1) / 2 ∧
        ∃ ex, (shuffle_and_filter_nodes randIdx shuffled).2 = some ex ∧ ex ∈ nodes ∧
          (ex :: pairNodes pairs).Perm nodes ∧
          (nodes.Nodup → (pairNodes pairs).count ex = 0 ∧
            ∀ x ∈ nodes, x ≠ ex → (pairNodes pairs).count x = 1)) := by
  intro nodes shuffled randIdx c iF oF k k' pairs hperm hrun
  have hlen : shuffled.length = nodes.length := hperm.length_eq
  by_cases heven : nodes.length % 2 = 0
  · have hsf : shuffle_and_filter_nodes randIdx shuffled = (shuffled, none) := by
      simp [shuffle_and_filter_nodes, hlen, heven]
    rw [hsf] at hrun
    obtain ⟨hself, hpermP, hlenP⟩ :=
      create_pairs_spec oF c iF k shuffled pairs k' (by omega) hrun
    have hpermN : (pairNodes pairs).Perm nodes := hpermP.trans hperm
    refine ⟨hself, fun _ => ⟨by rw [hsf], by omega, hpermN, ?_⟩, fun hodd => by omega⟩
    intro hnd x hx
    rw [hpermN.count_eq]
    exact List.count_eq_one_of_mem hnd hx
  · have hodd : nodes.length % 2 = 1 := by omega
    have hpos : 0 < shuffled.length := by omega
    have hidx : randIdx % shuffled.length < shuffled.length := Nat.mod_lt _ hpos
    have hsf : shuffle_and_filter_nodes randIdx shuffled =
        (shuffled.eraseIdx (randIdx % shuffled.length),
         some (shuffled.getD (randIdx % shuffled.length) "")) := by
      simp [shuffle_and_filter_nodes, hlen, hodd]
    have hperm2 : shuffled.Perm (shuffled.getD (randIdx % shuffled.length) "" ::
        shuffled.eraseIdx (randIdx % shuffled.length)) :=
      perm_getD_eraseIdx _ _ hidx
    have hlenE : (shuffled.eraseIdx (randIdx % shuffled.length)).length = nodes.length - 1 := by
      have := hperm2.length_eq
      simp at this
      omega
    rw [hsf] at hrun
    simp only [] at hrun
    obtain ⟨hself, hpermP, hlenP⟩ :=
      create_pairs_spec oF c iF k _ pairs k' (by omega) hrun
    refine ⟨hself, fun h0 => by omega, fun _ => ⟨by omega, ?_⟩⟩
    refine ⟨shuffled.getD (randIdx % shuffled.length) "", by rw [hsf], ?_, ?_, ?_⟩
    · exact hperm.subset (getD_mem _ _ hidx)
    · exact ((hpermP.cons _).trans hperm2.symm).trans hperm
    · intro hnd
      have hctot : ∀ x, (shuffled.getD (randIdx % shuffled.length) "" ::
          pairNodes pairs).count x = nodes.count x :=
        (((hpermP.cons _).trans hperm2.symm).trans hperm).count_eq
      have hexmem : shuffled.getD (randIdx % shuffled.length) "" ∈ nodes :=
        hperm.subset (getD_mem _ _ hidx)
      constructor
      · have h1 := hctot (shuffled.getD (randIdx % shuffled.length) "")
        rw [List.count_cons_self] at h1
        have h2 : nodes.count (shuffled.getD (randIdx % shuffled.length) "") = 1 :=
          List.count_eq_one_of_mem hnd hexmem
        omega
      · intro x hx hne
        have h1 := hctot x
        rw [List.count_cons_of_ne hne] at h1
        rw [h1]
        exact List.count_eq_one_of_mem hnd hx

/-- C1 witness: a concrete terminating run on four nodes. -/
theorem C1_pairing_partition_witness :
    (["a", "b", "c", "d"] : List String).Perm ["a", "b", "c", "d"] ∧
    create_pairs (fun k => k) 3 4 0 (shuffle_and_filter_nodes 0 ["a", "b", "c", "d"]).1 =
      some ([("a", "b"), ("c", "d")], 4) ∧
    (∀ p ∈ [(("a", "b") : String × String), ("c", "d")], p.1 ≠ p.2) := by
  have h1 : (["a", "b", "c", "d"] : List String).Perm ["a", "b", "c", "d"] := List.Perm.refl _
  have h2 : create_pairs (fun k => k) 3 4 0 (shuffle_and_filter_nodes 0 ["a", "b", "c", "d"]).1 =
      some ([("a", "b"), ("c", "d")], 4) := by decide
  exact ⟨h1, h2,
    (C1_pairing_partition ["a", "b", "c", "d"] ["a", "b", "c", "d"] 0 (fun k => k)
      3 4 0 4 [("a", "b"), ("c", "d")] h1 h2).1⟩

/-- C5: the empty node list yields no pairs and no exclusion, and a
singleton node list yields no pairs with that node reported excluded. -/
theorem C5_degenerate_inputs :
    ∀ (a : String) (randIdx : Nat) (c : Nat → Nat) (iF oF k : Nat),
      shuffle_and_filter_nodes randIdx ([] : List String) = ([], none) ∧
      shuffle_and_filter_nodes randIdx [a] = ([], some a) ∧
      create_pairs c iF oF k ([] : List String) = some ([], k) := by
  intro a randIdx c iF oF k
  refine ⟨?_, ?_, ?_⟩
  · simp [shuffle_and_filter_nodes]
  · simp [shuffle_and_filter_nodes, Nat.mod_one]
  · cases oF <;> simp [create_pairs]

/-! ## Termination of create_pairs (C9) -/

theorem drawDistinct_replicate_none (c : Nat → Nat) (a : String) (n : Nat) (hn : 0 < n) :
    ∀ fuel k, drawDistinct c a (List.replicate n a) fuel k = none := by
  intro fuel
  induction fuel with
  | zero => intro k; rfl
  | succ fuel ih =>
    intro k
    simp only [drawDistinct]
    have hga : (List.replicate n a).getD (c k % (List.replicate n a).length) "" = a := by
      have h2 : c k % n < n := Nat.mod_lt _ hn
      simp [List.getD_eq_getElem?_getD, List.getElem?_replicate, h2]
    rw [hga]
    simp only [beq_self_eq_true, if_true]
    exact ih (k + 1)

theorem create_pairs_replicate_none (a : String) (n : Nat) (hn : 2 ≤ n) :
    ∀ (c : Nat → Nat) (iF oF k : Nat), create_pairs c iF oF k (List.replicate n a) = none := by
  intro c iF oF k
  cases oF with
  | zero =>
    simp only [create_pairs]
    rw [if_pos (by simp; omega)]
  | succ oF =>
    simp only [create_pairs]
    rw [if_pos (by simp; omega)]
    have hga : (List.replicate n a).getD (c k % (List.replicate n a).length) "" = a := by
      have h2 : c k % n < n := Nat.mod_lt _ (by omega)
      simp [List.getD_eq_getElem?_getD, List.getElem?_replicate, h2]
    rw [hga, drawDistinct_replicate_none c a n (by omega) iF (k + 1)]

theorem create_pairs_total_alt :
    ∀ (n : Nat) (nodes : List String) (k : Nat), nodes.Nodup → nodes.length ≤ n →
      k % 2 = 0 → (create_pairs altOracle 1 n k nodes).isSome = true := by
  intro n
  induction n with
  | zero =>
    intro nodes k hnd hle hk
    have hnil : nodes = [] := List.eq_nil_of_length_eq_zero (by omega)
    subst hnil
    simp [create_pairs]
  | succ n ih =>
    intro nodes k hnd hle hk
    match nodes, hnd, hle with
    | [], _, _ => simp [create_pairs]
    | [a], _, _ => simp [create_pairs]
    | a :: b :: t, hnd, hle =>
      simp only [create_pairs]
      rw [if_pos (by simp)]
      have hk0 : altOracle k % (a :: b :: t).length = 0 := by
        simp [altOracle, hk]
      rw [hk0]
      simp only [List.getD_cons_zero]
      have hab : a ≠ b := by
        have := List.nodup_cons.mp hnd
        intro hcon
        exact this.1 (hcon ▸ List.mem_cons_self b t)
      have hd : drawDistinct altOracle a (a :: b :: t) 1 (k + 1) = some (b, k + 2) := by
        simp only [drawDistinct]
        have h1 : altOracle (k + 1) % (a :: b :: t).length = 1 := by
          have hk1 : (k + 1) % 2 = 1 := by omega
          simp only [altOracle, hk1]
          apply Nat.mod_eq_of_lt
          simp
        rw [h1]
        simp only [List.getD_cons_succ, List.getD_cons_zero]
        rw [if_neg (by simp [beq_eq_false_iff_ne]; exact fun h => hab h.symm)]
      rw [hd]
      simp only []
      rw [List.erase_cons_head, List.erase_cons_head]
      have hnd' : t.Nodup := ((List.nodup_cons.mp hnd).2.sublist (List.sublist_cons_self b t))
      have hle' : t.length ≤ n := by
        simp at hle
        omega
      have hk' : (k + 2) % 2 = 0 := by omega
      have hrec := ih t (k + 2) hnd' hle' hk'
      cases hc : create_pairs altOracle 1 n (k + 2) t with
      | none => rw [hc] at hrec; simp at hrec
      | some pr =>
        obtain ⟨ps, k₃⟩ := pr
        rfl

/-- C9: `create_pairs` terminates on every duplicate-free node list — an
oracle (alternating indices 0 and 1) and fuel `nodes.length` for the outer
loop with a single draw allowed in the re-draw loop already produce a
result — and the distinctness precondition is necessary: on a list whose
remaining identifiers are all equal (`replicate n a`, `n ≥ 2`, only
possible with duplicated identifiers), the re-draw of `node2` can never
exit, so the run returns `none` for every oracle and every fuel. -/
theorem C9_create_pairs_termination :
    (∀ (nodes : List String) (k : Nat), nodes.Nodup → k % 2 = 0 →
      (create_pairs altOracle 1 nodes.length k nodes).isSome = true) ∧
    (∀ (a : String) (n : Nat), 2 ≤ n → ∀ (c : Nat → Nat) (iF oF k : Nat),
      create_pairs c iF oF k (List.replicate n a) = none) :=
  ⟨fun nodes k hnd hk => create_pairs_total_alt nodes.length nodes k hnd (Nat.le_refl _) hk,
   fun a n hn c iF oF k => create_pairs_replicate_none a n hn c iF oF k⟩

/-- C9 witness: the duplicate-free list `["a", "b"]` terminates with the
witnessing oracle, and the all-equal list `["x", "x"]` fails for a sample
oracle and fuel. -/
theorem C9_create_pairs_termination_witness :
    (create_pairs altOracle 1 2 0 ["a", "b"]).isSome = true ∧
    create_pairs (fun _ => 0) 3 3 0 (List.replicate 2 "x") = none := by
  constructor
  · exact C9_create_pairs_termination.1 ["a", "b"] 0 (by decide) rfl
  · exact C9_create_pairs_termination.2 "x" 2 (by decide) (fun _ => 0) 3 3 0

/-! ## String helper lemmas -/

theorem mk_data (s : String) : String.mk s.data = s := rfl

theorem hasPre_append (p rest : List Char) : hasPre p (p ++ rest) = true := by
  induction p with
  | nil => rfl
  | cons c cs ih => simp [hasPre, ih]

theorem containsSeq_self_append (pat rest : List Char) :
    containsSeq pat (pat ++ rest) = true := by
  cases pat with
  | nil =>
    cases rest with
    | nil => rfl
    | cons c cs => simp [containsSeq, hasPre]
  | cons c cs =>
    have h := hasPre_append (c :: cs) rest
    simp only [List.cons_append] at h
    simp [containsSeq, h]

theorem containsSeq_append_left (xs l pat : List Char) (h : containsSeq pat l = true) :
    containsSeq pat (xs ++ l) = true := by
  induction xs with
  | nil => simpa
  | cons x xs ih => simp [containsSeq, ih]

theorem strContains_of_eq (s pre pat suf : String) (h : s = pre ++ (pat ++ suf)) :
    strContains s pat = true := by
  subst h
  show containsSeq pat.data (pre ++ (pat ++ suf)).data = true
  rw [String.data_append, String.data_append]
  exact containsSeq_append_left _ _ _ (containsSeq_self_append _ _)

theorem head_dropWhile_not (p : Char → Bool) :
    ∀ (l : List Char) c t, l.dropWhile p = c :: t → p c = false := by
  intro l
  induction l with
  | nil => intro c t h; simp [List.dropWhile] at h
  | cons a l ih =>
    intro c t h
    rw [List.dropWhile_cons] at h
    cases hpa : p a with
    | true => rw [hpa] at h; simp only [if_true] at h; exact ih _ _ h
    | false =>
      rw [hpa] at h
      simp only [Bool.false_eq_true, if_false] at h
      injection h with h1 h2
      rw [← h1]
      exact hpa

theorem getLast?_dropWhile (p : Char → Bool) :
    ∀ (l : List Char), l.dropWhile p ≠ [] → (l.dropWhile p).getLast? = l.getLast? := by
  intro l
  induction l with
  | nil => intro h; exact absurd rfl h
  | cons a l ih =>
    intro h
    rw [List.dropWhile_cons] at h ⊢
    cases hpa : p a with
    | false => rw [if_neg (by simp)]
    | true =>
      rw [hpa] at h
      rw [if_pos rfl] at h ⊢
      have hl : l ≠ [] := by
        intro hcon
        subst hcon
        simp [List.dropWhile] at h
      rw [ih h]
      cases l with
      | nil => exact absurd rfl hl
      | cons b t => rw [List.getLast?_cons_cons]

theorem pyStrip_no_edge_space (s : String) :
    (∀ ch, (pyStrip s).data.head? = some ch → isSpaceCh ch = false) ∧
    (∀ ch, (pyStrip s).data.getLast? = some ch → isSpaceCh ch = false) := by
  have hdata : (pyStrip s).data =
      ((s.data.dropWhile isSpaceCh).reverse.dropWhile isSpaceCh).reverse := rfl
  constructor
  · intro ch h
    rw [hdata, List.head?_reverse] at h
    by_cases hne : (s.data.dropWhile isSpaceCh).reverse.dropWhile isSpaceCh = []
    · rw [hne] at h; cases h
    · rw [getLast?_dropWhile isSpaceCh _ hne, List.getLast?_reverse] at h
      cases hB : s.data.dropWhile isSpaceCh with
      | nil => rw [hB] at h; cases h
      | cons b t =>
        rw [hB] at h
        injection h with h1
        exact h1 ▸ head_dropWhile_not isSpaceCh s.data b t hB
  · intro ch h
    rw [hdata, List.getLast?_reverse] at h
    cases hC : (s.data.dropWhile isSpaceCh).reverse.dropWhile isSpaceCh with
    | nil => rw [hC] at h; cases h
    | cons b t =>
      rw [hC] at h
      injection h with h1
      exact h1 ▸ head_dropWhile_not isSpaceCh _ b t hC

/-! ## C3: read_file -/

/-- C3 counterexample: the claim says no element of `read_file`'s result is
the empty string, but a blank line is stripped to `""` and kept. -/
theorem C3_counterexample_blank_line :
    read_file ["a\n", "\n", "b"] = ["a", "", "b"] ∧
    "" ∈ read_file ["a\n", "\n", "b"] := by
  exact ⟨by decide, by decide⟩

/-- C3 (amended): `read_file` returns the input lines in order, each
stripped of leading and trailing whitespace; blank lines are kept as empty
strings rather than filtered out. -/
theorem C3_read_file_trimmed_ordered :
    ∀ (lines : List String),
      (read_file lines).length = lines.length ∧
      (∀ i, (read_file lines).get? i = (lines.get? i).map pyStrip) ∧
      (∀ s, (∀ ch, (pyStrip s).data.head? = some ch → isSpaceCh ch = false) ∧
            (∀ ch, (pyStrip s).data.getLast? = some ch → isSpaceCh ch = false)) ∧
      pyStrip "" = "" := by
  intro lines
  refine ⟨by simp [read_file], ?_, fun s => pyStrip_no_edge_space s, by decide⟩
  intro i
  simp [read_file]

/-- C3 amended-claim witness on a concrete file. -/
theorem C3_read_file_trimmed_ordered_witness :
    (read_file ["  a ", "", "b\n"]).length = 3 ∧
    (read_file ["  a ", "", "b\n"]).get? 0 = some "a" := by
  have h := C3_read_file_trimmed_ordered ["  a ", "", "b\n"]
  refine ⟨h.1, ?_⟩
  rw [h.2.1 0]
  decide

/-! ## C10: pair string round trip -/

theorem splitCommaCh_no_comma : ∀ (cs : List Char), ',' ∉ cs → splitCommaCh cs = [cs] := by
  intro cs
  induction cs with
  | nil => intro _; rfl
  | cons c cs ih =>
    intro h
    have hc : c ≠ ',' := fun hcon => h (hcon ▸ List.mem_cons_self c cs)
    have hcs : ',' ∉ cs := fun hcon => h (List.mem_cons_of_mem _ hcon)
    simp only [splitCommaCh]
    rw [if_neg (by simpa using hc), ih hcs]

theorem splitCommaCh_append (xs ys : List Char) (h : ',' ∉ xs) :
    splitCommaCh (xs ++ ',' :: ys) = xs :: splitCommaCh ys := by
  induction xs with
  | nil => simp [splitCommaCh]
  | cons c cs ih =>
    have hc : c ≠ ',' := fun hcon => h (hcon ▸ List.mem_cons_self c cs)
    have hcs : ',' ∉ cs := fun hcon => h (List.mem_cons_of_mem _ hcon)
    simp only [List.cons_append, splitCommaCh]
    rw [if_neg (by simpa using hc)]
    simp only [List.append_eq]
    rw [ih hcs]

theorem pySplitComma_pairStr (n1 n2 : String) (h1 : ',' ∉ n1.data) (h2 : ',' ∉ n2.data) :
    pySplitComma (pairStr (n1, n2)) = [n1, n2] := by
  show (splitCommaCh ((n1 ++ "," ++ n2) : String).data).map String.mk = [n1, n2]
  rw [String.data_append, String.data_append,
    show (("," : String)).data = [','] from rfl, List.append_assoc, List.singleton_append,
    splitCommaCh_append _ _ h1, splitCommaCh_no_comma _ h2]
  simp [mk_data]

/-- C10: for comma-free node identifiers, encoding a pair as
`"node1,node2"` in `create_pairs` and splitting on commas in
`generate_job_script` recovers exactly the two identifiers (and the script
is rendered for them); when an identifier contains a comma the two-element
unpacking of the split fails. -/
theorem C10_pair_encode_decode :
    ∀ (n1 n2 : String), ',' ∉ n1.data → ',' ∉ n2.data →
      (pySplitComma (pairStr (n1, n2)) = [n1, n2] ∧
       ∀ (i : Nat) (omb mpi san : String),
         generate_job_script i (pairStr (n1, n2)) omb mpi san =
           some (job_script_body i omb mpi san n1 n2)) ∧
      generate_job_script 0 (pairStr ("a,b", "c")) "m" "mpirun" "m" = none := by
  intro n1 n2 h1 h2
  have hsplit := pySplitComma_pairStr n1 n2 h1 h2
  refine ⟨⟨hsplit, ?_⟩, by decide⟩
  intro i omb mpi san
  simp [generate_job_script, hsplit]

/-- C10 witness: round trip on the concrete pair `("n1", "n2")`. -/
theorem C10_pair_encode_decode_witness :
    (',' ∉ ("n1" : String).data) ∧ (',' ∉ ("n2" : String).data) ∧
    pySplitComma (pairStr ("n1", "n2")) = ["n1", "n2"] := by
  have ha : ',' ∉ ("n1" : String).data := by decide
  have hb : ',' ∉ ("n2" : String).data := by decide
  exact ⟨ha, hb, ((C10_pair_encode_decode "n1" "n2" ha hb).1).1⟩

/-! ## Decimal rendering of the sequence index -/

theorem str_ext {x y : String} (h : x.data = y.data) : x = y := by
  cases x; cases y; cases h; rfl

theorem digitVal_digitCh (d : Nat) (h : d < 10) : digitVal (digitCh d) = d := by
  interval_cases d <;> rfl

theorem digitCh_ne_underscore (n : Nat) : digitCh n ≠ '_' := by
  match n with
  | 0 => decide
  | 1 => decide
  | 2 => decide
  | 3 => decide
  | 4 => decide
  | 5 => decide
  | 6 => decide
  | 7 => decide
  | 8 => decide
  | 9 => decide
  | m + 10 => exact (by decide : ('*' : Char) ≠ '_')

theorem charsVal_append_one (xs : List Char) (ch : Char) :
    charsVal (xs ++ [ch]) = 10 * charsVal xs + digitVal ch := by
  simp [charsVal, List.foldl_append]

theorem natCharsAux_val : ∀ (fuel n : Nat), n < fuel → charsVal (natCharsAux fuel n) = n := by
  intro fuel
  induction fuel with
  | zero => intro n h; exact absurd h (Nat.not_lt_zero n)
  | succ fuel ih =>
    intro n h
    simp only [natCharsAux]
    by_cases h10 : n < 10
    · rw [if_pos h10]
      have : charsVal [digitCh n] = digitVal (digitCh n) := by simp [charsVal]
      rw [this, digitVal_digitCh n h10]
    · rw [if_neg h10]
      rw [charsVal_append_one, ih (n / 10) (by omega), digitVal_digitCh (n % 10) (by omega)]
      omega

theorem natStr_inj (m n : Nat) (h : natStr m = natStr n) : m = n := by
  have hd : natCharsAux (m + 1) m = natCharsAux (n + 1) n := congrArg String.data h
  have hm := natCharsAux_val (m + 1) m (Nat.lt_succ_self m)
  have hn := natCharsAux_val (n + 1) n (Nat.lt_succ_self n)
  rw [← hm, ← hn, hd]

theorem natCharsAux_no_underscore : ∀ (fuel n : Nat), '_' ∉ natCharsAux fuel n := by
  intro fuel
  induction fuel with
  | zero => intro n; simp [natCharsAux]
  | succ fuel ih =>
    intro n
    simp only [natCharsAux]
    by_cases h10 : n < 10
    · rw [if_pos h10]
      simp only [List.mem_singleton]
      intro hcon
      exact digitCh_ne_underscore n hcon.symm
    · rw [if_neg h10]
      intro hcon
      rcases List.mem_append.mp hcon with hl | hr
      · exact ih (n / 10) hl
      · rw [List.mem_singleton] at hr
        exact digitCh_ne_underscore (n % 10) hr.symm

theorem no_underscore_sep_inj :
    ∀ (xs ys as bs : List Char), '_' ∉ xs → '_' ∉ ys →
      xs ++ '_' :: as = ys ++ '_' :: bs → xs = ys := by
  intro xs
  induction xs with
  | nil =>
    intro ys as bs _ hy h
    cases ys with
    | nil => rfl
    | cons y ys =>
      injection h with h1 _
      exact absurd (by rw [h1]; exact List.mem_cons_self y ys) hy
  | cons x xs ih =>
    intro ys as bs hx hy h
    cases ys with
    | nil =>
      injection h with h1 _
      exact absurd (by rw [← h1]; exact List.mem_cons_self x xs) hx
    | cons y ys =>
      injection h with h1 h2
      have hx' : '_' ∉ xs := fun hc => hx (List.mem_cons_of_mem _ hc)
      have hy' : '_' ∉ ys := fun hc => hy (List.mem_cons_of_mem _ hc)
      rw [h1, ih ys as bs hx' hy' h2]

theorem natStr_sep_inj (i j : Nat) (ri rj : List Char)
    (h : (natStr i).data ++ '_' :: ri = (natStr j).data ++ '_' :: rj) : i = j := by
  have heq : (natStr i).data = (natStr j).data :=
    no_underscore_sep_inj _ _ _ _ (natCharsAux_no_underscore (i + 1) i)
      (natCharsAux_no_underscore (j + 1) j) h
  exact natStr_inj i j (str_ext heq)

/-! ## C2: module-name sanitization placement -/

/-- C2 counterexample: for module name `lib/2.1` the sanitized tag is
`lib-2.1`, but the `--job-name` directive of the generated script embeds
the raw `lib/2.1` and not the sanitized tag. -/
theorem C2_counterexample_job_name_raw :
    sanitize "lib/2.1" = "lib-2.1" ∧
    strContains (job_name "lib/2.1" "n1" "n2") "lib-2.1" = false ∧
    (generate_job_script 0 "n1,n2" "lib/2.1" "mpirun" (sanitize "lib/2.1")).map
      (fun s => strContains s "--job-name=bibw_lib-2.1") = some false ∧
    (generate_job_script 0 "n1,n2" "lib/2.1" "mpirun" (sanitize "lib/2.1")).map
      (fun s => strContains s "--job-name=bibw_lib/2.1_n1_n2\n") = some true := by
  refine ⟨by decide, by decide, by decide, by decide⟩

/-- C2 (amended): the sanitized module tag (path separators replaced by
hyphens) is embedded in the output-log path and in the script file name,
while the job name embeds the raw, unsanitized module name. -/
theorem C2_sanitized_tag_placement :
    ∀ (i : Nat) (pair omb mpi n1 n2 : String), pySplitComma pair = [n1, n2] →
      ∃ s, generate_job_script i pair omb mpi (sanitize omb) = some s ∧
        strContains s ("#SBATCH --job-name=" ++ job_name omb n1 n2 ++ "\n") = true ∧
        strContains s ("#SBATCH --output=" ++ output_path i (sanitize omb) n1 n2 ++ "\n") = true ∧
        strContains (script_name i (sanitize omb) pair) (sanitize omb) = true := by
  intro i pair omb mpi n1 n2 hsplit
  refine ⟨job_script_body i omb mpi (sanitize omb) n1 n2, ?_, ?_, ?_, ?_⟩
  · simp [generate_job_script, hsplit]
  · exact strContains_of_eq _ ("#!/bin/bash\n") _
      ("#SBATCH --reservation=maint\n" ++ "#SBATCH -p htc\n" ++ "#SBATCH -q public\n" ++
       "#SBATCH -t 1\n" ++ "#SBATCH --ntasks-per-node=1\n" ++ "#SBATCH --gpus-per-node=1\n" ++
       "#SBATCH -N 2\n" ++ "#SBATCH -n 2\n" ++ "#SBATCH -c 1\n" ++
       "#SBATCH --nodelist=" ++ n1 ++ "," ++ n2 ++ "\n" ++
       "#SBATCH --output=" ++ output_path i (sanitize omb) n1 n2 ++ "\n" ++
       "#SBATCH --export=NONE\n" ++ "\n" ++
       "echo \"Running on nodes " ++ n1 ++ " and " ++ n2 ++ " with OMB " ++ omb ++ "\"\n" ++
       "module load " ++ omb ++ "\n" ++ mpi ++ " \"osu_bibw\"\n")
      (str_ext (by simp only [job_script_body, String.data_append, List.append_assoc]))
  · exact strContains_of_eq _
      ("#!/bin/bash\n" ++ "#SBATCH --job-name=" ++ job_name omb n1 n2 ++ "\n" ++
       "#SBATCH --reservation=maint\n" ++ "#SBATCH -p htc\n" ++ "#SBATCH -q public\n" ++
       "#SBATCH -t 1\n" ++ "#SBATCH --ntasks-per-node=1\n" ++ "#SBATCH --gpus-per-node=1\n" ++
       "#SBATCH -N 2\n" ++ "#SBATCH -n 2\n" ++ "#SBATCH -c 1\n" ++
       "#SBATCH --nodelist=" ++ n1 ++ "," ++ n2 ++ "\n") _
      ("#SBATCH --export=NONE\n" ++ "\n" ++
       "echo \"Running on nodes " ++ n1 ++ " and " ++ n2 ++ " with OMB " ++ omb ++ "\"\n" ++
       "module load " ++ omb ++ "\n" ++ mpi ++ " \"osu_bibw\"\n")
      (str_ext (by simp only [job_script_body, String.data_append, List.append_assoc]))
  · exact strContains_of_eq _ ("log/bibw_" ++ natStr i ++ "_") _
      ("_" ++ replaceChar ',' '_' pair ++ ".sh")
      (str_ext (by simp only [script_name, String.data_append, List.append_assoc]))

/-- C2 amended-claim witness at module name `lib/2.1`. -/
theorem C2_sanitized_tag_placement_witness :
    pySplitComma "n1,n2" = ["n1", "n2"] ∧
    (∃ s, generate_job_script 7 "n1,n2" "lib/2.1" "mpirun" (sanitize "lib/2.1") = some s ∧
      strContains s ("#SBATCH --job-name=" ++ job_name "lib/2.1" "n1" "n2" ++ "\n") = true ∧
      strContains s ("#SBATCH --output=" ++ output_path 7 (sanitize "lib/2.1") "n1" "n2" ++ "\n") =
        true ∧
      strContains (script_name 7 (sanitize "lib/2.1") "n1,n2") (sanitize "lib/2.1") = true) := by
  have hs : pySplitComma "n1,n2" = ["n1", "n2"] := by decide
  exact ⟨hs, C2_sanitized_tag_placement 7 "n1,n2" "lib/2.1" "mpirun" "n1" "n2" hs⟩

/-! ## C4: per-index uniqueness of artifact names -/

/-- C4: within one run (same sanitized module tag), two different sequence
indices always produce different script file names and different
output-log paths, whatever the pair strings and node identifiers are: the
decimal index sits between the literal prefix and the first underscore, so
equal names force equal indices. -/
theorem C4_artifact_names_unique :
    ∀ (i j : Nat) (san p q n1 n2 m1 m2 : String), i ≠ j →
      script_name i san p ≠ script_name j san q ∧
      output_path i san n1 n2 ≠ output_path j san m1 m2 := by
  intro i j san p q n1 n2 m1 m2 hij
  constructor
  · intro hcon
    apply hij
    have hdata := congrArg String.data hcon
    simp only [script_name, String.data_append, List.append_assoc,
      show ("_" : String).data = ['_'] from rfl, List.singleton_append] at hdata
    exact natStr_sep_inj i j _ _ (List.append_cancel_left hdata)
  · intro hcon
    apply hij
    have hdata := congrArg String.data hcon
    simp only [output_path, String.data_append, List.append_assoc,
      show ("_" : String).data = ['_'] from rfl, List.singleton_append] at hdata
    exact natStr_sep_inj i j _ _ (List.append_cancel_left hdata)

/-- C4 witness at indices 0 and 1 with identical tag, pair and nodes. -/
theorem C4_artifact_names_unique_witness :
    (0 : Nat) ≠ 1 ∧
    script_name 0 "lib-2.1" "a,b" ≠ script_name 1 "lib-2.1" "a,b" ∧
    output_path 0 "lib-2.1" "a" "b" ≠ output_path 1 "lib-2.1" "a" "b" := by
  have h01 : (0 : Nat) ≠ 1 := by decide
  have h := C4_artifact_names_unique 0 1 "lib-2.1" "a,b" "a,b" "a" "b" "a" "b" h01
  exact ⟨h01, h.1, h.2⟩

/-! ## C6: fixed resource request and placement constraint -/

/-- C6: for every pair and index the generated script requests exactly the
fixed resource set — 2 nodes (`-N 2`, `-n 2`), one task per node, one GPU
per node, one CPU per task (`-c 1`), the one-minute time limit (`-t 1`) —
and pins exactly the pair's two node identifiers in the `--nodelist`
placement constraint. -/
theorem C6_fixed_resources_and_nodelist :
    ∀ (i : Nat) (pair omb mpi san n1 n2 : String), pySplitComma pair = [n1, n2] →
      ∃ s, generate_job_script i pair omb mpi san = some s ∧
        strContains s "#SBATCH -N 2\n" = true ∧
        strContains s "#SBATCH -n 2\n" = true ∧
        strContains s "#SBATCH --ntasks-per-node=1\n" = true ∧
        strContains s "#SBATCH --gpus-per-node=1\n" = true ∧
        strContains s "#SBATCH -c 1\n" = true ∧
        strContains s "#SBATCH -t 1\n" = true ∧
        strContains s ("#SBATCH --nodelist=" ++ n1 ++ "," ++ n2 ++ "\n") = true := by
  intro i pair omb mpi san n1 n2 hsplit
  refine ⟨job_script_body i omb mpi san n1 n2, by simp [generate_job_script, hsplit],
    ?_, ?_, ?_, ?_, ?_, ?_, ?_⟩
  · exact strContains_of_eq _
      ("#!/bin/bash\n" ++ "#SBATCH --job-name=" ++ job_name omb n1 n2 ++ "\n" ++
       "#SBATCH --reservation=maint\n" ++ "#SBATCH -p htc\n" ++ "#SBATCH -q public\n" ++
       "#SBATCH -t 1\n" ++ "#SBATCH --ntasks-per-node=1\n" ++ "#SBATCH --gpus-per-node=1\n") _
      ("#SBATCH -n 2\n" ++ "#SBATCH -c 1\n" ++
       "#SBATCH --nodelist=" ++ n1 ++ "," ++ n2 ++ "\n" ++
       "#SBATCH --output=" ++ output_path i san n1 n2 ++ "\n" ++
       "#SBATCH --export=NONE\n" ++ "\n" ++
       "echo \"Running on nodes " ++ n1 ++ " and " ++ n2 ++ " with OMB " ++ omb ++ "\"\n" ++
       "module load " ++ omb ++ "\n" ++ mpi ++ " \"osu_bibw\"\n")
      (str_ext (by simp only [job_script_body, String.data_append, List.append_assoc]))
  · exact strContains_of_eq _
      ("#!/bin/bash\n" ++ "#SBATCH --job-name=" ++ job_name omb n1 n2 ++ "\n" ++
       "#SBATCH --reservation=maint\n" ++ "#SBATCH -p htc\n" ++ "#SBATCH -q public\n" ++
       "#SBATCH -t 1\n" ++ "#SBATCH --ntasks-per-node=1\n" ++ "#SBATCH --gpus-per-node=1\n" ++
       "#SBATCH -N 2\n") _
      ("#SBATCH -c 1\n" ++
       "#SBATCH --nodelist=" ++ n1 ++ "," ++ n2 ++ "\n" ++
       "#SBATCH --output=" ++ output_path i san n1 n2 ++ "\n" ++
       "#SBATCH --export=NONE\n" ++ "\n" ++
       "echo \"Running on nodes " ++ n1 ++ " and " ++ n2 ++ " with OMB " ++ omb ++ "\"\n" ++
       "module load " ++ omb ++ "\n" ++ mpi ++ " \"osu_bibw\"\n")
      (str_ext (by simp only [job_script_body, String.data_append, List.append_assoc]))
  · exact strContains_of_eq _
      ("#!/bin/bash\n" ++ "#SBATCH --job-name=" ++ job_name omb n1 n2 ++ "\n" ++
       "#SBATCH --reservation=maint\n" ++ "#SBATCH -p htc\n" ++ "#SBATCH -q public\n" ++
       "#SBATCH -t 1\n") _
      ("#SBATCH --gpus-per-node=1\n" ++ "#SBATCH -N 2\n" ++ "#SBATCH -n 2\n" ++
       "#SBATCH -c 1\n" ++
       "#SBATCH --nodelist=" ++ n1 ++ "," ++ n2 ++ "\n" ++
       "#SBATCH --output=" ++ output_path i san n1 n2 ++ "\n" ++
       "#SBATCH --export=NONE\n" ++ "\n" ++
       "echo \"Running on nodes " ++ n1 ++ " and " ++ n2 ++ " with OMB " ++ omb ++ "\"\n" ++
       "module load " ++ omb ++ "\n" ++ mpi ++ " \"osu_bibw\"\n")
      (str_ext (by simp only [job_script_body, String.data_append, List.append_assoc]))
  · exact strContains_of_eq _
      ("#!/bin/bash\n" ++ "#SBATCH --job-name=" ++ job_name omb n1 n2 ++ "\n" ++
       "#SBATCH --reservation=maint\n" ++ "#SBATCH -p htc\n" ++ "#SBATCH -q public\n" ++
       "#SBATCH -t 1\n" ++ "#SBATCH --ntasks-per-node=1\n") _
      ("#SBATCH -N 2\n" ++ "#SBATCH -n 2\n" ++ "#SBATCH -c 1\n" ++
       "#SBATCH --nodelist=" ++ n1 ++ "," ++ n2 ++ "\n" ++
       "#SBATCH --output=" ++ output_path i san n1 n2 ++ "\n" ++
       "#SBATCH --export=NONE\n" ++ "\n" ++
       "echo \"Running on nodes " ++ n1 ++ " and " ++ n2 ++ " with OMB " ++ omb ++ "\"\n" ++
       "module load " ++ omb ++ "\n" ++ mpi ++ " \"osu_bibw\"\n")
      (str_ext (by simp only [job_script_body, String.data_append, List.append_assoc]))
  · exact strContains_of_eq _
      ("#!/bin/bash\n" ++ "#SBATCH --job-name=" ++ job_name omb n1 n2 ++ "\n" ++
       "#SBATCH --reservation=maint\n" ++ "#SBATCH -p htc\n" ++ "#SBATCH -q public\n" ++
       "#SBATCH -t 1\n" ++ "#SBATCH --ntasks-per-node=1\n" ++ "#SBATCH --gpus-per-node=1\n" ++
       "#SBATCH -N 2\n" ++ "#SBATCH -n 2\n") _
      ("#SBATCH --nodelist=" ++ n1 ++ "," ++ n2 ++ "\n" ++
       "#SBATCH --output=" ++ output_path i san n1 n2 ++ "\n" ++
       "#SBATCH --export=NONE\n" ++ "\n" ++
       "echo \"Running on nodes " ++ n1 ++ " and " ++ n2 ++ " with OMB " ++ omb ++ "\"\n" ++
       "module load " ++ omb ++ "\n" ++ mpi ++ " \"osu_bibw\"\n")
      (str_ext (by simp only [job_script_body, String.data_append, List.append_assoc]))
  · exact strContains_of_eq _
      ("#!/bin/bash\n" ++ "#SBATCH --job-name=" ++ job_name omb n1 n2 ++ "\n" ++
       "#SBATCH --reservation=maint\n" ++ "#SBATCH -p htc\n" ++ "#SBATCH -q public\n") _
      ("#SBATCH --ntasks-per-node=1\n" ++ "#SBATCH --gpus-per-node=1\n" ++
       "#SBATCH -N 2\n" ++ "#SBATCH -n 2\n" ++ "#SBATCH -c 1\n" ++
       "#SBATCH --nodelist=" ++ n1 ++ "," ++ n2 ++ "\n" ++
       "#SBATCH --output=" ++ output_path i san n1 n2 ++ "\n" ++
       "#SBATCH --export=NONE\n" ++ "\n" ++
       "echo \"Running on nodes " ++ n1 ++ " and " ++ n2 ++ " with OMB " ++ omb ++ "\"\n" ++
       "module load " ++ omb ++ "\n" ++ mpi ++ " \"osu_bibw\"\n")
      (str_ext (by simp only [job_script_body, String.data_append, List.append_assoc]))
  · exact strContains_of_eq _
      ("#!/bin/bash\n" ++ "#SBATCH --job-name=" ++ job_name omb n1 n2 ++ "\n" ++
       "#SBATCH --reservation=maint\n" ++ "#SBATCH -p htc\n" ++ "#SBATCH -q public\n" ++
       "#SBATCH -t 1\n" ++ "#SBATCH --ntasks-per-node=1\n" ++ "#SBATCH --gpus-per-node=1\n" ++
       "#SBATCH -N 2\n" ++ "#SBATCH -n 2\n" ++ "#SBATCH -c 1\n") _
      ("#SBATCH --output=" ++ output_path i san n1 n2 ++ "\n" ++
       "#SBATCH --export=NONE\n" ++ "\n" ++
       "echo \"Running on nodes " ++ n1 ++ " and " ++ n2 ++ " with OMB " ++ omb ++ "\"\n" ++
       "module load " ++ omb ++ "\n" ++ mpi ++ " \"osu_bibw\"\n")
      (str_ext (by simp only [job_script_body, String.data_append, List.append_assoc]))

/-- C6 witness at a concrete pair. -/
theorem C6_fixed_resources_and_nodelist_witness :
    pySplitComma "a,b" = ["a", "b"] ∧
    (∃ s, generate_job_script 0 "a,b" "m" "mpirun" "m" = some s ∧
      strContains s "#SBATCH -N 2\n" = true ∧
      strContains s "#SBATCH -n 2\n" = true ∧
      strContains s "#SBATCH --ntasks-per-node=1\n" = true ∧
      strContains s "#SBATCH --gpus-per-node=1\n" = true ∧
      strContains s "#SBATCH -c 1\n" = true ∧
      strContains s "#SBATCH -t 1\n" = true ∧
      strContains s ("#SBATCH --nodelist=" ++ "a" ++ "," ++ "b" ++ "\n") = true) := by
  have hs : pySplitComma "a,b" = ["a", "b"] := by decide
  exact ⟨hs, C6_fixed_resources_and_nodelist 0 "a,b" "m" "mpirun" "m" "a" "b" hs⟩

/-! ## C7: determinism of script generation -/

/-- C7: `generate_job_script` is a pure function of its inputs — two
invocations with the same index, pair string and run parameters yield the
same script content, and the derived script file name is the same. -/
theorem C7_generate_job_script_deterministic :
    ∀ (i₁ i₂ : Nat) (pair₁ pair₂ omb₁ omb₂ mpi₁ mpi₂ san₁ san₂ : String),
      i₁ = i₂ → pair₁ = pair₂ → omb₁ = omb₂ → mpi₁ = mpi₂ → san₁ = san₂ →
      generate_job_script i₁ pair₁ omb₁ mpi₁ san₁ =
        generate_job_script i₂ pair₂ omb₂ mpi₂ san₂ ∧
      script_name i₁ san₁ pair₁ = script_name i₂ san₂ pair₂ := by
  intro i₁ i₂ pair₁ pair₂ omb₁ omb₂ mpi₁ mpi₂ san₁ san₂ h1 h2 h3 h4 h5
  subst h1; subst h2; subst h3; subst h4; subst h5
  exact ⟨rfl, rfl⟩

/-- C7 witness: two identical concrete invocations coincide. -/
theorem C7_generate_job_script_deterministic_witness :
    generate_job_script 0 "a,b" "m" "mpirun" "m" =
      generate_job_script 0 "a,b" "m" "mpirun" "m" ∧
    script_name 0 "m" "a,b" = script_name 0 "m" "a,b" :=
  C7_generate_job_script_deterministic 0 0 "a,b" "a,b" "m" "m" "mpirun" "mpirun" "m" "m"
    rfl rfl rfl rfl rfl

/-! ## C8: fire-and-forget submission -/

/-- C8: the dispatch loop invokes the scheduler as a child process with
`sbatch` and the generated script path as its sole argument, and its whole
behaviour — the action trace and success of the run — is identical for any
two exit-status oracles: the scheduler's exit status is received and
discarded, so a non-zero exit is never surfaced and processing continues
exactly as in the success case. -/
theorem C8_submission_fire_and_forget :
    ∀ (e₁ e₂ : String → Int) (omb mpi : String) (i : Nat) (prs : List String),
      dispatch_pairs e₁ omb mpi i prs = dispatch_pairs e₂ omb mpi i prs ∧
      (∀ acts, dispatch_pairs e₁ omb mpi i prs = some acts →
        acts.filter isRunAct = (prs.enumFrom i).map (fun ip =>
          Action.run ["sbatch", script_name ip.1 (sanitize omb) ip.2])) := by
  intro e₁ e₂ omb mpi i prs
  constructor
  · induction prs generalizing i with
    | nil => rfl
    | cons p rest ih =>
      simp only [dispatch_pairs]
      cases hg : generate_job_script i p omb mpi (sanitize omb) with
      | none => rfl
      | some script => rw [ih (i + 1)]
  · induction prs generalizing i with
    | nil =>
      intro acts h
      obtain rfl : ([] : List Action) = acts := by simpa [dispatch_pairs] using h
      simp
    | cons p rest ih =>
      intro acts h
      simp only [dispatch_pairs] at h
      cases hg : generate_job_script i p omb mpi (sanitize omb) with
      | none => rw [hg] at h; cases h
      | some script =>
        rw [hg] at h
        simp only [] at h
        cases hr : dispatch_pairs e₁ omb mpi (i + 1) rest with
        | none => rw [hr] at h; cases h
        | some acts' =>
          rw [hr] at h
          simp only [Option.some.injEq] at h
          subst h
          have ht := ih (i + 1) acts' hr
          simp [List.filter, isRunAct, ht, List.enumFrom]

/-- C8 witness: a failing scheduler (exit 1) produces the same trace as a
succeeding one (exit 0), and the single submit call carries the script
path as its only argument after the command name. -/
theorem C8_submission_fire_and_forget_witness :
    dispatch_pairs (fun _ => 0) "lib/2.1" "mpirun" 0 ["a,b"] =
      dispatch_pairs (fun _ => 1) "lib/2.1" "mpirun" 0 ["a,b"] ∧
    (dispatch_pairs (fun _ => 0) "lib/2.1" "mpirun" 0 ["a,b"]).map
      (fun acts => acts.filter isRunAct) =
      some [Action.run ["sbatch", "log/bibw_0_lib-2.1_a_b.sh"]] := by
  have hall := C8_submission_fire_and_forget (fun _ => 0) (fun _ => 1) "lib/2.1" "mpirun" 0 ["a,b"]
  refine ⟨hall.1, ?_⟩
  cases hd : dispatch_pairs (fun _ => (0 : Int)) "lib/2.1" "mpirun" 0 ["a,b"] with
  | none => exact absurd hd (by decide)
  | some acts =>
    have hf := hall.2 acts hd
    have hm : (some acts).map (fun acts => acts.filter isRunAct) =
        some (acts.filter isRunAct) := rfl
    rw [hm, hf]
    decide

end PairwiseRunner
